import Mathlib

/-!
Verification of the DHIS2 User Manager bulk-synchronization engine
(shallow embedding of `src/unnamed/part_001`).

The embedding models every network call by its *final* outcome as observed
by the caller of `apiRequest` (the transport retries internally; a call that
ultimately succeeds was answered, a call that ultimately fails surfaces the
last error).  Server behaviour is an explicit oracle passed to each
operation, and every operation additionally returns the trace of calls it
issued, so that request counts and orderings can be proved.
-/

namespace UserManager

/-- Final outcome of one `apiRequest` call as seen by its caller:
the promise resolved (`ok`), rejected with an HTTP error response carrying a
status (`httpError`), or rejected with a client-side timeout
(`error.code === 'ECONNABORTED'`, which carries no response). -/
inductive CallOutcome where
  | ok : CallOutcome
  | httpError : Nat → CallOutcome
  | timeout : CallOutcome
deriving DecidableEq, Repr

/-! ## Transport configuration (`apiRequest`, lines 206–226)

`apiRequest` builds its axios argument as
`{ ...config, url: …, timeout: 30000, headers: … }`.
In a JavaScript object literal a later property wins over an earlier one,
so the `timeout: 30000` written after `...config` replaces any timeout the
caller put into `config`. -/

/-- The caller-visible fields of a request config that matter for the
timeout question. -/
structure RequestConfig where
  method : String
  url : String
  timeoutMs : Option Nat := none
deriving DecidableEq, Repr

/-- The axios argument actually built inside `apiRequest`: the fields of
`config` first, then `timeout: 30000` (which therefore overrides a
caller-supplied timeout), then the merged headers. -/
def apiRequestAxiosConfig (config : RequestConfig) : RequestConfig :=
  { config with timeoutMs := some 30000 }

/-- The config `deleteUser` passes for its final DELETE call
(lines 514–518): `{ method: 'DELETE', url: '/users/' + userId, timeout: 60000 }`. -/
def deleteRequestConfig (userId : String) : RequestConfig :=
  { method := "DELETE", url := "/users/" ++ userId, timeoutMs := some 60000 }

/-- The standard timeout used for ordinary requests (`timeout: 30000`). -/
def standardTimeoutMs : Nat := 30000

/-! ## Deletion pipeline (`deleteUser`, lines 491–548)

`deleteUser` performs, inside one `try` block: a GET of the full record, a
disabling PUT, a 1s settle delay, and a DELETE.  The `catch` block receives
whichever of the three calls failed; if the error's code is `ECONNABORTED`
it re-fetches the record by id and reinterprets a 404 on that verification
GET as success. -/

/-- Which network calls `deleteUser` can issue, in trace order. -/
inductive DeleteCall where
  | initialGet : DeleteCall
  | disablePut : DeleteCall
  | deleteReq : DeleteCall
  | verifyGet : DeleteCall
deriving DecidableEq, Repr

/-- Oracle for one run of `deleteUser` on a fixed record: the final outcome
of each call it might issue. -/
structure DeleteEnv where
  initialGet : CallOutcome
  disablePut : CallOutcome
  deleteReq : CallOutcome
  verifyGet : CallOutcome
deriving DecidableEq, Repr

/-- The `catch` block of `deleteUser` (lines 523–547): if the caught error
is a client-side timeout (`error.code === 'ECONNABORTED'`), re-fetch the
record; a successful re-fetch means the record still exists (failure), a
re-fetch rejected with status 404 confirms deletion (success), and every
other verification outcome falls through to the generic failure return. -/
def deleteUserCatch (env : DeleteEnv) (err : CallOutcome) : Bool :=
  match err with
  | CallOutcome.timeout =>
    match env.verifyGet with
    | CallOutcome.ok => false
    | CallOutcome.httpError s => s == 404
    | CallOutcome.timeout => false
  | _ => false

/-- The verification trace of the `catch` block: the compensating GET is
issued exactly when the caught error is a timeout. -/
def deleteUserCatchTrace (err : CallOutcome) : List DeleteCall :=
  match err with
  | CallOutcome.timeout => [DeleteCall.verifyGet]
  | _ => []

/-- Model of `deleteUser` (lines 491–548): GET the record, PUT it back disabled with
minimal references, wait 1s, DELETE it.  The first call that fails jumps to
the catch block with its error.  Returns the reported success flag together
with the trace of calls issued. -/
def deleteUser (env : DeleteEnv) : Bool × List DeleteCall :=
  match env.initialGet with
  | CallOutcome.ok =>
    match env.disablePut with
    | CallOutcome.ok =>
      match env.deleteReq with
      | CallOutcome.ok =>
        (true, [DeleteCall.initialGet, DeleteCall.disablePut, DeleteCall.deleteReq])
      | err =>
        (deleteUserCatch env err,
          [DeleteCall.initialGet, DeleteCall.disablePut, DeleteCall.deleteReq] ++
            deleteUserCatchTrace err)
    | err =>
      (deleteUserCatch env err,
        [DeleteCall.initialGet, DeleteCall.disablePut] ++ deleteUserCatchTrace err)
  | err =>
    (deleteUserCatch env err, [DeleteCall.initialGet] ++ deleteUserCatchTrace err)

end UserManager

open UserManager

/-- Claim C2. For every deletion, if the client-side timeout fires on the
DELETE call (the initial GET and the disabling PUT having succeeded), the
deletion is reported as success exactly when the compensating re-fetch is
rejected with HTTP 404; every other re-fetch outcome — record still present
(`ok`) or a non-404 error — is reported as failure. -/
theorem c2_delete_timeout_compensation (env : DeleteEnv)
    (hget : env.initialGet = CallOutcome.ok)
    (hput : env.disablePut = CallOutcome.ok)
    (hdel : env.deleteReq = CallOutcome.timeout) :
    (deleteUser env).1 = true ↔ env.verifyGet = CallOutcome.httpError 404 := by
  cases env with
  | mk g p d v =>
    simp only at hget hput hdel
    subst hget hput hdel
    cases v with
    | ok => simp [deleteUser, deleteUserCatch]
    | httpError s =>
      simp only [deleteUser, deleteUserCatch]
      constructor
      · intro h
        have hs : s = 404 := by simpa using h
        rw [hs]
      · intro h
        have hs : s = 404 := by
          injection h
        simp [hs]
    | timeout => simp [deleteUser, deleteUserCatch]

/-- Witness for C2 at a concrete environment: GET and PUT succeed, the
DELETE times out, and the verification GET returns 404 — the deletion is
reported as success. -/
theorem c2_delete_timeout_compensation_witness :
    (deleteUser
      { initialGet := CallOutcome.ok, disablePut := CallOutcome.ok,
        deleteReq := CallOutcome.timeout,
        verifyGet := CallOutcome.httpError 404 }).1 = true :=
  (c2_delete_timeout_compensation
    { initialGet := CallOutcome.ok, disablePut := CallOutcome.ok,
      deleteReq := CallOutcome.timeout,
      verifyGet := CallOutcome.httpError 404 } rfl rfl rfl).mpr rfl

/-- Claim C10. The timeout-compensation branch of `deleteUser` is keyed only
on the error code of whichever call failed: in the concrete execution where
the *initial GET* times out and the verification GET returns 404,
`deleteUser` reports success even though no DELETE request was ever
issued. -/
theorem c10_compensation_not_keyed_to_delete_call :
    (deleteUser
      { initialGet := CallOutcome.timeout, disablePut := CallOutcome.ok,
        deleteReq := CallOutcome.ok,
        verifyGet := CallOutcome.httpError 404 }).1 = true ∧
    (deleteUser
      { initialGet := CallOutcome.timeout, disablePut := CallOutcome.ok,
        deleteReq := CallOutcome.ok,
        verifyGet := CallOutcome.httpError 404 }).2 =
      [DeleteCall.initialGet, DeleteCall.verifyGet] ∧
    DeleteCall.deleteReq ∉
      (deleteUser
        { initialGet := CallOutcome.timeout, disablePut := CallOutcome.ok,
          deleteReq := CallOutcome.ok,
          verifyGet := CallOutcome.httpError 404 }).2 := by
  refine ⟨rfl, rfl, ?_⟩
  decide

/-- Claim C4 (evaluation at the failing input). The DELETE call of the
deletion pipeline *asks* for a 60-second timeout, but the axios argument
built inside `apiRequest` lists `timeout: 30000` after spreading the
caller's config, so the request is actually sent with the standard
30-second timeout — not an extended one. -/
theorem c4_delete_timeout_overridden :
    (deleteRequestConfig "u1").timeoutMs = some 60000 ∧
    (apiRequestAxiosConfig (deleteRequestConfig "u1")).timeoutMs =
      some standardTimeoutMs ∧
    some standardTimeoutMs ≠ (some 60000 : Option Nat) := by
  refine ⟨rfl, rfl, ?_⟩
  decide

namespace UserManager

/-! ## Record model and validation (`validateUser`, lines 418–423)

A user record carries a username and five id-reference lists.  JavaScript's
`!user.username` is truthy for a missing *or empty* username, so a missing
username is modelled by the empty string; `user.userRoles?.length` is falsy
for a missing or empty list, modelled by the empty list. -/

/-- An id reference `{ id: … }` as it appears in the reference lists. -/
structure RefId where
  id : String
deriving DecidableEq, Repr

/-- One user record submitted for synchronization. -/
structure UserRecord where
  firstName : String := ""
  surname : String := ""
  username : String
  userRoles : List RefId
  organisationUnits : List RefId
  dataViewOrganisationUnits : List RefId := []
  teiSearchOrganisationUnits : List RefId := []
  userGroups : List RefId := []
deriving DecidableEq, Repr

/-- Model of `validateUser` (lines 418–423): returns the first applicable error
message, or `none` for a valid record. -/
def validateUser (user : UserRecord) : Option String :=
  if user.username = "" then some "Username is required"
  else if user.userRoles.isEmpty then some "At least one user role is required"
  else if user.organisationUnits.isEmpty then
    some "At least one organization unit is required"
  else none

/-! ## Conflict resolver (`getUserId`/`updateUser`/`createUser`,
lines 426–489) and the per-record closure of `processBatch`
(lines 575–587).

The server is an oracle giving each call's final outcome.  `getUserId`
catches its own errors and returns `null`, so its oracle directly yields
`Option String` (`none` both when no user matches and when the lookup
failed). -/

/-- Server oracle for one upsert run. -/
structure UpsertServer where
  lookupResult : String → Option String
  createOutcome : String → CallOutcome
  updateOutcome : String → CallOutcome

/-- The network calls an upsert run can issue, with enough payload to
distinguish records. -/
inductive ApiCall where
  | lookupCall : String → ApiCall
  | createCall : String → ApiCall
  | updateCall : String → String → ApiCall
deriving DecidableEq, Repr

/-- Model of `getUserId` (lines 426–437): one filtered-list GET; errors are caught
inside and collapsed to `null`.  Returns the resolved id and the trace. -/
def getUserId (srv : UpsertServer) (username : String) :
    Option String × List ApiCall :=
  (srv.lookupResult username, [ApiCall.lookupCall username])

/-- Model of `updateUser` (lines 439–464): one full-replace PUT against the resolved
id; any error is caught and reported as `false`. -/
def updateUser (srv : UpsertServer) (user : UserRecord) (id : String) :
    Bool × List ApiCall :=
  (match srv.updateOutcome user.username with
    | CallOutcome.ok => true
    | _ => false,
   [ApiCall.updateCall user.username id])

/-- Model of `createUser` (lines 466–489): attempt the create POST; on an error
whose response status is 409, look the id up and, if found, update; a 409
with no id found, and every non-409 error, are definitive failures. -/
def createUser (srv : UpsertServer) (user : UserRecord) :
    Bool × List ApiCall :=
  match srv.createOutcome user.username with
  | CallOutcome.ok => (true, [ApiCall.createCall user.username])
  | CallOutcome.httpError 409 =>
    let lk := getUserId srv user.username
    match lk.1 with
    | some id =>
      let upd := updateUser srv user id
      (upd.1, ApiCall.createCall user.username :: (lk.2 ++ upd.2))
    | none => (false, ApiCall.createCall user.username :: lk.2)
  | _ => (false, [ApiCall.createCall user.username])

/-- The per-record closure inside `processBatch` (lines 576–585): look the
username up first; update when an id was found, otherwise fall back to
`createUser`.  A thrown error would be caught and reported as failure, but
every branch above already catches its own errors. -/
def processRecord (srv : UpsertServer) (user : UserRecord) :
    Bool × List ApiCall :=
  let lk := getUserId srv user.username
  match lk.1 with
  | some id =>
    let upd := updateUser srv user id
    (upd.1, lk.2 ++ upd.2)
  | none =>
    let cr := createUser srv user
    (cr.1, lk.2 ++ cr.2)

/-- Model of `processBatch` (lines 575–587): map the per-record closure over the
chunk (dispatched together via `Promise.all`); the chunk's results keep the
chunk's order, and its request trace is the concatenation of the records'
traces. -/
def processBatch (srv : UpsertServer) (batch : List UserRecord) :
    List (UserRecord × Bool) × List ApiCall :=
  (batch.map (fun user => (user, (processRecord srv user).1)),
   batch.flatMap (fun user => (processRecord srv user).2))

/-! ## Batch upsert engine (`processUsers`, lines 606–652)

The `for` loop visits record offsets `i = 0, b, 2b, …` while `i < N`, so
chunk `k` is `retryUsers.slice(k*b, k*b + b)` and the loop runs
`Math.ceil(N / b)` times when never cancelled.  `Math.round` on the
non-negative rational `num/den` is `⌊num/den + 1/2⌋`. -/

/-- Model of `Math.round (num / den)` for natural `num`, `den` (`den > 0`). -/
def jsRound (num den : Nat) : Nat :=
  (2 * num + den) / (2 * den)

/-- Model of `Math.ceil(total / batchSize)` (line 621). -/
def numBatches (total batchSize : Nat) : Nat :=
  (total + batchSize - 1) / batchSize

/-- The contiguous chunks `slice(k*b, k*b + b)` visited by the loop, in
order. -/
def chunksOf (batchSize : Nat) (records : List UserRecord) :
    List (List UserRecord) :=
  (List.range (numBatches records.length batchSize)).map
    (fun k => ((records.drop (k * batchSize)).take batchSize))

/-- The loop-carried state of one upsert run. -/
structure RunAcc where
  successCount : Nat
  errorCount : Nat
  failed : List UserRecord
  requests : List ApiCall
  progressValues : List Nat
  stopped : Bool
deriving DecidableEq, Repr

/-- One iteration body of the `for` loop (lines 626–639): process the
chunk, count its successes and failures, append its failed records, and set
`progress = Math.round((i + batchSize) / total * 100)` where `i = k*b`. -/
def runChunkStep (srv : UpsertServer) (total batchSize : Nat)
    (chunk : List UserRecord) (k : Nat) (acc : RunAcc) : RunAcc :=
  let results := (processBatch srv chunk).1
  { successCount := acc.successCount + (results.filter (fun r => r.2)).length,
    errorCount := acc.errorCount + (results.filter (fun r => !r.2)).length,
    failed := acc.failed ++ (results.filter (fun r => !r.2)).map Prod.fst,
    requests := acc.requests ++ (processBatch srv chunk).2,
    progressValues :=
      acc.progressValues ++ [jsRound (100 * ((k + 1) * batchSize)) total],
    stopped := acc.stopped }

/-- The chunk loop of `processUsers` (lines 625–642).  `stopAfter k` is the
value of the shared `shouldStop` flag as observed at the cancellation
checks that decide whether chunk `k+1` may start (the `break` after chunk
`k` and the loop condition before chunk `k+1` read the same flag): an
in-flight chunk always finishes, and the loop halts after the first chunk
`k` with `stopAfter k = true`. -/
def runChunks (srv : UpsertServer) (stopAfter : Nat → Bool)
    (total batchSize : Nat) :
    List (List UserRecord) → Nat → RunAcc → RunAcc
  | [], _, acc => acc
  | chunk :: rest, k, acc =>
    let acc1 := runChunkStep srv total batchSize chunk k acc
    if stopAfter k then { acc1 with stopped := true }
    else runChunks srv stopAfter total batchSize rest (k + 1) acc1

/-- The component state a run reads and replaces. -/
structure EngineState where
  failedUsers : List UserRecord
  progress : Nat
deriving DecidableEq, Repr

/-- Everything one invocation of `processUsers` produces: the replaced
component state, the request trace, the successive values assigned to
`progress` (the reset to 0 included), the final counts, the invalid-record
count reported on an aborted run, and whether the run was stopped. -/
structure RunOutput where
  state : EngineState
  requests : List ApiCall
  progressValues : List Nat
  successCount : Nat
  errorCount : Nat
  abortedInvalidCount : Option Nat
  stopped : Bool
deriving DecidableEq, Repr

/-- Model of `processUsers` (lines 606–652): filter out invalid records and, if any
exist, log their count and return before touching progress, the failed
list, or the network.  Otherwise reset progress to 0, clear the failed
list, run the chunk loop, and store the accumulated failed records and
final progress wholesale. -/
def processUsers (srv : UpsertServer) (stopAfter : Nat → Bool)
    (st : EngineState) (retryUsers : List UserRecord) (batchSize : Nat) :
    RunOutput :=
  let invalidUsers := retryUsers.filter (fun user => (validateUser user).isSome)
  if invalidUsers.length ≠ 0 then
    { state := st, requests := [], progressValues := [],
      successCount := 0, errorCount := 0,
      abortedInvalidCount := some invalidUsers.length, stopped := false }
  else
    let acc := runChunks srv stopAfter retryUsers.length batchSize
      (chunksOf batchSize retryUsers) 0
      { successCount := 0, errorCount := 0, failed := [], requests := [],
        progressValues := [], stopped := false }
    { state := { failedUsers := acc.failed,
                 progress := acc.progressValues.getLastD 0 },
      requests := acc.requests,
      progressValues := 0 :: acc.progressValues,
      successCount := acc.successCount,
      errorCount := acc.errorCount,
      abortedInvalidCount := none,
      stopped := acc.stopped }

/-- Model of `processUsers` as invoked from the component scope: the component state
includes `connectionStatus`, but the body of `processUsers` (lines 606–652)
never reads it — there is no connection check in the entry point. -/
def processUsersAt (_connectionStatus : String) (srv : UpsertServer)
    (stopAfter : Nat → Bool) (st : EngineState)
    (retryUsers : List UserRecord) (batchSize : Nat) : RunOutput :=
  processUsers srv stopAfter st retryUsers batchSize

end UserManager

namespace UserManager

/-! ## Deletion loop (`deleteSelectedUsers`, lines 550–572) and password
pipeline (`processPasswordUpdates`, lines 678–740)

Both loops are strictly sequential.  Neither entry point consults
`connectionStatus`; the `At` wrappers record the status under which the
component invokes them. -/

/-- Model of `deleteSelectedUsers` (lines 550–572): refuse an empty selection, ask
for confirmation, then delete the selected users one at a time, counting
successes and concatenating the per-user call traces in order. -/
def deleteSelectedUsers (confirmed : Bool) (env : String → DeleteEnv)
    (selected : List (String × String)) : Nat × List DeleteCall :=
  if selected.isEmpty then (0, [])
  else if !confirmed then (0, [])
  else
    selected.foldl
      (fun acc su =>
        let r := deleteUser (env su.1)
        (acc.1 + (if r.1 then 1 else 0), acc.2 ++ r.2))
      (0, [])

/-- Model of `deleteSelectedUsers` as invoked from the component scope: its body
(lines 550–572) never reads `connectionStatus`. -/
def deleteSelectedUsersAt (_connectionStatus : String) (confirmed : Bool)
    (env : String → DeleteEnv) (selected : List (String × String)) :
    Nat × List DeleteCall :=
  deleteSelectedUsers confirmed env selected

/-- The network calls of the password pipeline, in trace order. -/
inductive PasswordCall where
  | lookupCall : String → PasswordCall
  | fetchCall : String → PasswordCall
  | putCall : String → PasswordCall
deriving DecidableEq, Repr

/-- Server oracle for one password-update run.  `lookupResult` is `none`
both when the filtered list is empty and when the lookup itself failed
(either way the record is counted as an error); `putResult` is the resolved
HTTP status of the PUT, or `none` when the PUT was rejected. -/
structure PasswordEnv where
  lookupResult : String → Option String
  fetchOutcome : String → CallOutcome
  putResult : String → Option Nat

/-- One iteration of `processPasswordUpdates` (lines 693–732): look the
username up; if no id was found count an error; otherwise fetch the full
record, overwrite its credential password, PUT it back, and count success
exactly when the PUT resolved with status 200 or 204. -/
def processPasswordRecord (env : PasswordEnv) (username : String) :
    Bool × List PasswordCall :=
  match env.lookupResult username with
  | none => (false, [PasswordCall.lookupCall username])
  | some userId =>
    match env.fetchOutcome userId with
    | CallOutcome.ok =>
      match env.putResult userId with
      | some s =>
        (s == 200 || s == 204,
         [PasswordCall.lookupCall username, PasswordCall.fetchCall userId,
          PasswordCall.putCall userId])
      | none =>
        (false,
         [PasswordCall.lookupCall username, PasswordCall.fetchCall userId,
          PasswordCall.putCall userId])
    | _ => (false, [PasswordCall.lookupCall username, PasswordCall.fetchCall userId])

/-- Model of `processPasswordUpdates` (lines 678–740): refuse an empty import, then
process the records strictly sequentially, accumulating success and error
counts and the call trace. -/
def processPasswordUpdates (env : PasswordEnv) (passwordUsers : List String) :
    Nat × Nat × List PasswordCall :=
  if passwordUsers.isEmpty then (0, 0, [])
  else
    passwordUsers.foldl
      (fun acc username =>
        let r := processPasswordRecord env username
        (acc.1 + (if r.1 then 1 else 0), acc.2.1 + (if r.1 then 0 else 1),
         acc.2.2 ++ r.2))
      (0, 0, [])

/-- Model of `processPasswordUpdates` as invoked from the component scope: its body
(lines 678–740) never reads `connectionStatus`. -/
def processPasswordUpdatesAt (_connectionStatus : String)
    (env : PasswordEnv) (passwordUsers : List String) :
    Nat × Nat × List PasswordCall :=
  processPasswordUpdates env passwordUsers

/-! ## Concrete fixtures used by witnesses and counterexamples -/

/-- A server on which no submitted username exists and every create and
update succeeds: every lookup resolves no id, every create returns 2xx. -/
def srvFresh : UpsertServer :=
  { lookupResult := fun _ => none,
    createOutcome := fun _ => CallOutcome.ok,
    updateOutcome := fun _ => CallOutcome.ok }

/-- A minimal valid record with the given username. -/
def sampleUser (name : String) : UserRecord :=
  { username := name, userRoles := [{ id := "r1" }],
    organisationUnits := [{ id := "o1" }] }

/-- A cancellation flag that is never raised. -/
def noStop : Nat → Bool := fun _ => false

/-- An engine state with a clean failed list and progress 0. -/
def st0 : EngineState := { failedUsers := [], progress := 0 }

/-- A deletion environment in which every call succeeds. -/
def delEnvOk : String → DeleteEnv :=
  fun _ => { initialGet := CallOutcome.ok, disablePut := CallOutcome.ok,
             deleteReq := CallOutcome.ok, verifyGet := CallOutcome.ok }

/-- A password environment in which every record resolves and updates. -/
def pwEnvOk : PasswordEnv :=
  { lookupResult := fun _ => some "id1",
    fetchOutcome := fun _ => CallOutcome.ok,
    putResult := fun _ => some 200 }

end UserManager

namespace UserManager

/-! ## Chunking lemmas -/

theorem numBatches_zero (b : Nat) : numBatches 0 b = 0 := by
  unfold numBatches
  cases b with
  | zero => rfl
  | succ n => exact Nat.div_eq_of_lt (by omega)

theorem numBatches_succ {b total : Nat} (hb : 0 < b) (htotal : 0 < total) :
    numBatches total b = numBatches (total - b) b + 1 := by
  unfold numBatches
  rcases le_or_lt b total with hle | hlt
  · have harith : total + b - 1 = (total - b + b - 1) + b := by omega
    rw [harith, Nat.add_div_right _ hb]
  · have hsub : total - b = 0 := by omega
    rw [hsub]
    have h1 : (total + b - 1) / b = 1 := by
      apply Nat.div_eq_of_lt_le (by omega) (by omega)
    have h0 : (0 + b - 1) / b = 0 := Nat.div_eq_of_lt (by omega)
    rw [h1, h0]

theorem chunksOf_nil (b : Nat) : chunksOf b [] = [] := by
  simp [chunksOf, numBatches_zero]

theorem chunksOf_cons {b : Nat} (hb : 0 < b) (records : List UserRecord)
    (hne : records ≠ []) :
    chunksOf b records = records.take b :: chunksOf b (records.drop b) := by
  have hN : 0 < records.length := List.length_pos.mpr hne
  unfold chunksOf
  rw [List.length_drop, numBatches_succ hb hN, List.range_succ_eq_map]
  simp only [List.map_cons, List.map_map, Nat.zero_mul, List.drop_zero]
  congr 1
  apply List.map_congr_left
  intro k _
  simp only [Function.comp_apply, List.drop_drop, Nat.succ_mul]
  congr 2
  omega

theorem chunksOf_join_aux {b : Nat} (hb : 0 < b) :
    ∀ (n : Nat) (records : List UserRecord), records.length ≤ n →
      (chunksOf b records).flatten = records := by
  intro n
  induction n with
  | zero =>
    intro records hlen
    have : records = [] := List.eq_nil_of_length_eq_zero (by omega)
    simp [this, chunksOf_nil]
  | succ n ih =>
    intro records hlen
    cases records with
    | nil => simp [chunksOf_nil]
    | cons x xs =>
      rw [chunksOf_cons hb _ (by simp), List.flatten_cons]
      rw [ih ((x :: xs).drop b)
        (by simp only [List.length_drop, List.length_cons] at hlen ⊢; omega)]
      exact List.take_append_drop b (x :: xs)

theorem chunksOf_join {b : Nat} (hb : 0 < b) (records : List UserRecord) :
    (chunksOf b records).flatten = records :=
  chunksOf_join_aux hb records.length records le_rfl

theorem chunksOf_length (b : Nat) (records : List UserRecord) :
    (chunksOf b records).length = numBatches records.length b := by
  simp [chunksOf]

theorem chunksOf_chunk_le (b : Nat) (records : List UserRecord) :
    ∀ c ∈ chunksOf b records, c.length ≤ b := by
  intro c hc
  simp only [chunksOf, List.mem_map, List.mem_range] at hc
  obtain ⟨k, -, rfl⟩ := hc
  simp only [List.length_take]
  omega

end UserManager

namespace UserManager

/-! ## Run-loop characterizations -/

theorem map_pair_filter (c : List UserRecord) (p : UserRecord → Bool)
    (q : Bool → Bool) :
    ((c.map (fun u => (u, p u))).filter (fun r => q r.2)).map Prod.fst =
      c.filter (fun u => q (p u)) := by
  induction c with
  | nil => rfl
  | cons x xs ih =>
    simp only [List.map_cons, List.filter_cons]
    cases hq : q (p x) <;> simp [hq, ih]

theorem map_pair_filter_length (c : List UserRecord) (p : UserRecord → Bool)
    (q : Bool → Bool) :
    ((c.map (fun u => (u, p u))).filter (fun r => q r.2)).length =
      (c.filter (fun u => q (p u))).length := by
  have h := congrArg List.length (map_pair_filter c p q)
  simpa using h

theorem filter_snd_length (srv : UpsertServer) (c : List UserRecord) :
    ((c.map (fun user => (user, (processRecord srv user).1))).filter
        (fun r => r.2)).length =
      (c.filter (fun u => (processRecord srv u).1)).length := by
  induction c with
  | nil => rfl
  | cons x xs ih =>
    simp only [List.map_cons, List.filter_cons]
    cases hx : (processRecord srv x).1 <;> simp [hx, ih]

theorem filter_snd_neg_map_fst (srv : UpsertServer) (c : List UserRecord) :
    (((c.map (fun user => (user, (processRecord srv user).1))).filter
        (fun r => !r.2)).map Prod.fst) =
      c.filter (fun u => !(processRecord srv u).1) := by
  induction c with
  | nil => rfl
  | cons x xs ih =>
    simp only [List.map_cons, List.filter_cons]
    cases hx : (processRecord srv x).1 <;> simp [hx, ih]

theorem filter_snd_neg_length (srv : UpsertServer) (c : List UserRecord) :
    ((c.map (fun user => (user, (processRecord srv user).1))).filter
        (fun r => !r.2)).length =
      (c.filter (fun u => !(processRecord srv u).1)).length := by
  have h := congrArg List.length (filter_snd_neg_map_fst srv c)
  simpa using h

theorem runChunkStep_eq (srv : UpsertServer) (total b : Nat)
    (c : List UserRecord) (k : Nat) (acc : RunAcc) :
    runChunkStep srv total b c k acc =
      { successCount := acc.successCount +
          (c.filter (fun u => (processRecord srv u).1)).length,
        errorCount := acc.errorCount +
          (c.filter (fun u => !(processRecord srv u).1)).length,
        failed := acc.failed ++ c.filter (fun u => !(processRecord srv u).1),
        requests := acc.requests ++ (processBatch srv c).2,
        progressValues := acc.progressValues ++
          [jsRound (100 * ((k + 1) * b)) total],
        stopped := acc.stopped } := by
  simp only [runChunkStep, processBatch, filter_snd_length,
    filter_snd_neg_length, filter_snd_neg_map_fst]

theorem runChunks_noStop (srv : UpsertServer) (total b : Nat) :
    ∀ (cs : List (List UserRecord)) (k : Nat) (acc : RunAcc),
    runChunks srv (fun _ => false) total b cs k acc =
      { successCount := acc.successCount +
          (cs.flatten.filter (fun u => (processRecord srv u).1)).length,
        errorCount := acc.errorCount +
          (cs.flatten.filter (fun u => !(processRecord srv u).1)).length,
        failed := acc.failed ++
          cs.flatten.filter (fun u => !(processRecord srv u).1),
        requests := acc.requests ++ cs.flatMap (fun c => (processBatch srv c).2),
        progressValues := acc.progressValues ++
          (List.range' (k + 1) cs.length).map
            (fun m => jsRound (100 * (m * b)) total),
        stopped := acc.stopped } := by
  intro cs
  induction cs with
  | nil => intro k acc; simp [runChunks]
  | cons c rest ih =>
    intro k acc
    have hstep : runChunks srv (fun _ => false) total b (c :: rest) k acc =
        runChunks srv (fun _ => false) total b rest (k + 1)
          (runChunkStep srv total b c k acc) := by
      simp [runChunks]
    rw [hstep, ih (k + 1), runChunkStep_eq]
    simp [List.flatten_cons, List.filter_append, List.flatMap_cons,
      List.range'_succ, List.append_assoc, Nat.add_assoc]

end UserManager

namespace UserManager

/-- When the cancellation flag is first observed raised at the check after
chunk `k + d` (it is monotone: raised exactly from that check on), the loop
starting at chunk index `k` behaves like an uncancelled loop over the first
`d + 1` remaining chunks, and reports the run as stopped. -/
theorem runChunks_stop (srv : UpsertServer) (total b : Nat)
    (stopAfter : Nat → Bool) :
    ∀ (d : Nat) (cs : List (List UserRecord)) (k : Nat) (acc : RunAcc),
      (∀ j, stopAfter j = true ↔ k + d ≤ j) → d < cs.length →
      runChunks srv stopAfter total b cs k acc =
        { runChunks srv (fun _ => false) total b (cs.take (d + 1)) k acc
            with stopped := true } := by
  intro d
  induction d with
  | zero =>
    intro cs k acc hflag hlen
    cases cs with
    | nil => simp at hlen
    | cons c rest =>
      have hk : stopAfter k = true := (hflag k).mpr (by omega)
      simp [runChunks, hk]
  | succ d ih =>
    intro cs k acc hflag hlen
    cases cs with
    | nil => simp at hlen
    | cons c rest =>
      have hk : stopAfter k = false := by
        rcases Bool.eq_false_or_eq_true (stopAfter k) with h | h
        · exact absurd ((hflag k).mp h) (by omega)
        · exact h
      have hflag1 : ∀ j, stopAfter j = true ↔ (k + 1) + d ≤ j := by
        intro j
        rw [hflag j]
        omega
      have hlen1 : d < rest.length := by
        simp only [List.length_cons] at hlen
        omega
      calc runChunks srv stopAfter total b (c :: rest) k acc
          = runChunks srv stopAfter total b rest (k + 1)
              (runChunkStep srv total b c k acc) := by simp [runChunks, hk]
        _ = { runChunks srv (fun _ => false) total b (rest.take (d + 1)) (k + 1)
                (runChunkStep srv total b c k acc) with stopped := true } :=
            ih rest (k + 1) (runChunkStep srv total b c k acc) hflag1 hlen1
        _ = { runChunks srv (fun _ => false) total b ((c :: rest).take (d + 1 + 1)) k acc
                with stopped := true } := by
            simp [List.take_succ_cons, runChunks]

end UserManager

namespace UserManager

/-! ## `processUsers`-level lemmas -/

theorem invalid_filter_nil (records : List UserRecord)
    (hvalid : ∀ u ∈ records, validateUser u = none) :
    records.filter (fun u => (validateUser u).isSome) = [] := by
  rw [List.filter_eq_nil_iff]
  intro u hu
  simp [hvalid u hu]

/-- On all-valid input, `processUsers` reaches the chunk loop. -/
theorem processUsers_run (srv : UpsertServer) (stopAfter : Nat → Bool)
    (st : EngineState) (records : List UserRecord) (b : Nat)
    (hvalid : ∀ u ∈ records, validateUser u = none) :
    processUsers srv stopAfter st records b =
      (let acc := runChunks srv stopAfter records.length b
        (chunksOf b records) 0
        { successCount := 0, errorCount := 0, failed := [], requests := [],
          progressValues := [], stopped := false }
       { state := { failedUsers := acc.failed,
                    progress := acc.progressValues.getLastD 0 },
         requests := acc.requests,
         progressValues := 0 :: acc.progressValues,
         successCount := acc.successCount,
         errorCount := acc.errorCount,
         abortedInvalidCount := none,
         stopped := acc.stopped }) := by
  simp [processUsers, invalid_filter_nil records hvalid]

theorem flatMap_congr_mem {α β : Type} (l : List α) (f g : α → List β)
    (h : ∀ a ∈ l, f a = g a) : l.flatMap f = l.flatMap g := by
  induction l with
  | nil => rfl
  | cons x xs ih =>
    simp only [List.flatMap_cons]
    rw [h x (List.mem_cons_self x xs),
      ih (fun a ha => h a (List.mem_cons_of_mem x ha))]

theorem flatMap_pair_length {α β : Type} (l : List α) (f g : α → β) :
    (l.flatMap (fun a => [f a, g a])).length = 2 * l.length := by
  induction l with
  | nil => rfl
  | cons x xs ih =>
    simp only [List.flatMap_cons, List.length_append, List.length_cons,
      List.length_nil, ih, List.length_cons]
    omega

/-- The request stream of a chunk list is the per-record stream of its
flattening. -/
theorem flatMap_processBatch (srv : UpsertServer)
    (cs : List (List UserRecord)) :
    cs.flatMap (fun c => (processBatch srv c).2) =
      cs.flatten.flatMap (fun u => (processRecord srv u).2) := by
  induction cs with
  | nil => rfl
  | cons c rest ih =>
    simp only [List.flatMap_cons, List.flatten_cons, List.flatMap_append, ih]
    simp [processBatch]

end UserManager

namespace UserManager

/-- An invalid record: missing username, no roles, no organisation units. -/
def invalidUser : UserRecord :=
  { username := "", userRoles := [], organisationUnits := [] }

end UserManager

/-- Claim C1 (counterexample). For a record set of one valid record whose
username does not exist on the server and whose create succeeds, a fully
successful create-only run issues 2 requests, not 1, and the first request
is the username lookup, not the create POST. -/
theorem c1_counterexample :
    (processUsers srvFresh noStop st0 [sampleUser "alice"] 2).requests =
      [ApiCall.lookupCall "alice", ApiCall.createCall "alice"] ∧
    (processUsers srvFresh noStop st0 [sampleUser "alice"] 2).requests.length ≠ 1 := by
  constructor
  · rfl
  · decide

/-- Claim C1 (amended). For every record set of N valid records where no
record's username exists on the server and every create succeeds, the Batch
Upsert Engine issues exactly 2N requests: each record is handled
lookup-first — its username lookup precedes its create POST, and the create
is attempted only because the lookup resolved no id (a further lookup would
happen only inside the create's HTTP-409 conflict handler). -/
theorem c1_amended_lookup_first_2n_requests (srv : UpsertServer)
    (st : EngineState) (records : List UserRecord) (b : Nat)
    (hb : b = 1 ∨ b = 2 ∨ b = 5 ∨ b = 10)
    (hvalid : ∀ u ∈ records, validateUser u = none)
    (hfresh : ∀ u ∈ records, srv.lookupResult u.username = none ∧
      srv.createOutcome u.username = CallOutcome.ok) :
    (processUsers srv noStop st records b).requests =
      records.flatMap (fun u =>
        [ApiCall.lookupCall u.username, ApiCall.createCall u.username]) ∧
    (processUsers srv noStop st records b).requests.length =
      2 * records.length ∧
    (processUsers srv noStop st records b).successCount = records.length ∧
    (processUsers srv noStop st records b).errorCount = 0 := by
  have hb0 : 0 < b := by rcases hb with h | h | h | h <;> omega
  have hreq : (processUsers srv noStop st records b).requests =
      records.flatMap (fun u =>
        [ApiCall.lookupCall u.username, ApiCall.createCall u.username]) := by
    rw [processUsers_run srv noStop st records b hvalid]
    show (runChunks srv noStop records.length b (chunksOf b records) 0 _).requests = _
    rw [show noStop = (fun _ => false) from rfl, runChunks_noStop]
    simp only [List.nil_append]
    rw [flatMap_processBatch, chunksOf_join hb0]
    apply flatMap_congr_mem
    intro u hu
    obtain ⟨h1, h2⟩ := hfresh u hu
    simp [processRecord, getUserId, createUser, h1, h2]
  refine ⟨hreq, ?_, ?_, ?_⟩
  · rw [hreq]
    exact flatMap_pair_length records _ _
  · rw [processUsers_run srv noStop st records b hvalid]
    show (runChunks srv noStop records.length b (chunksOf b records) 0 _).successCount = _
    rw [show noStop = (fun _ => false) from rfl, runChunks_noStop]
    simp only [Nat.zero_add]
    rw [chunksOf_join hb0]
    have hall : records.filter (fun u => (processRecord srv u).1) = records := by
      rw [List.filter_eq_self]
      intro u hu
      obtain ⟨h1, h2⟩ := hfresh u hu
      simp [processRecord, getUserId, createUser, h1, h2]
    rw [hall]
  · rw [processUsers_run srv noStop st records b hvalid]
    show (runChunks srv noStop records.length b (chunksOf b records) 0 _).errorCount = _
    rw [show noStop = (fun _ => false) from rfl, runChunks_noStop]
    simp only [Nat.zero_add]
    rw [chunksOf_join hb0]
    have hnone : records.filter (fun u => !(processRecord srv u).1) = [] := by
      rw [List.filter_eq_nil_iff]
      intro u hu
      obtain ⟨h1, h2⟩ := hfresh u hu
      simp [processRecord, getUserId, createUser, h1, h2]
    rw [hnone]
    rfl

/-- Witness for the amended C1 at three concrete fresh records with
batchSize 2: the run issues exactly the three lookup-create pairs in record
order, six requests in total, and reports three successes. -/
theorem c1_amended_witness :
    (processUsers srvFresh noStop st0
      [sampleUser "u1", sampleUser "u2", sampleUser "u3"] 2).requests =
      [ApiCall.lookupCall "u1", ApiCall.createCall "u1",
       ApiCall.lookupCall "u2", ApiCall.createCall "u2",
       ApiCall.lookupCall "u3", ApiCall.createCall "u3"] ∧
    (processUsers srvFresh noStop st0
      [sampleUser "u1", sampleUser "u2", sampleUser "u3"] 2).requests.length =
      2 * 3 ∧
    (processUsers srvFresh noStop st0
      [sampleUser "u1", sampleUser "u2", sampleUser "u3"] 2).successCount = 3 := by
  have h := c1_amended_lookup_first_2n_requests srvFresh st0
    [sampleUser "u1", sampleUser "u2", sampleUser "u3"] 2
    (Or.inr (Or.inl rfl))
    (by intro u hu; fin_cases hu <;> rfl)
    (by intro u hu; fin_cases hu <;> exact ⟨rfl, rfl⟩)
  exact ⟨by rw [h.1]; rfl, by rw [h.2.1]; rfl, h.2.2.1⟩

/-- Claim C3 (evaluation at the failing input). On a run over 3 valid records
with batchSize 2, the progress values assigned are 0 (the reset at run
start), then 67 after the first chunk, then Math.round(4/3·100) = 133 after
the final partial chunk: the stored progress ends at 133, strictly above
100, because the final chunk recomputes progress from `i + batchSize` = 4
rather than from the 3 records actually processed. -/
theorem c3_progress_exceeds_100 :
    (processUsers srvFresh noStop st0
      [sampleUser "u1", sampleUser "u2", sampleUser "u3"] 2).progressValues =
      [0, 67, 133] ∧
    (processUsers srvFresh noStop st0
      [sampleUser "u1", sampleUser "u2", sampleUser "u3"] 2).state.progress =
      133 ∧
    100 <
      (processUsers srvFresh noStop st0
        [sampleUser "u1", sampleUser "u2", sampleUser "u3"] 2).state.progress := by
  refine ⟨rfl, rfl, ?_⟩
  decide

/-- Claim C5. A run whose input contains at least one invalid record (missing
username, empty role set, or empty organisation-unit set) aborts before any
network request: it reports the invalid count, processes no record, and
leaves the stored failed list and the progress untouched. -/
theorem c5_invalid_input_aborts (srv : UpsertServer) (stopAfter : Nat → Bool)
    (st : EngineState) (records : List UserRecord) (b : Nat)
    (hinv : ∃ u ∈ records, (validateUser u).isSome) :
    (processUsers srv stopAfter st records b).state = st ∧
    (processUsers srv stopAfter st records b).requests = [] ∧
    (processUsers srv stopAfter st records b).progressValues = [] ∧
    (processUsers srv stopAfter st records b).successCount = 0 ∧
    (processUsers srv stopAfter st records b).errorCount = 0 ∧
    (processUsers srv stopAfter st records b).abortedInvalidCount =
      some ((records.filter (fun u => (validateUser u).isSome)).length) ∧
    0 < (records.filter (fun u => (validateUser u).isSome)).length := by
  obtain ⟨u, hu, hsome⟩ := hinv
  have hmem : u ∈ records.filter (fun u => (validateUser u).isSome) :=
    List.mem_filter.mpr ⟨hu, by simpa using hsome⟩
  have hpos : 0 < (records.filter (fun u => (validateUser u).isSome)).length :=
    List.length_pos.mpr (List.ne_nil_of_mem hmem)
  have hne : (records.filter (fun u => (validateUser u).isSome)).length ≠ 0 := by
    omega
  simp [processUsers, hne, hpos]

/-- Witness for C5: a singleton input with the all-empty invalid record
aborts with invalid count 1, empty request trace, and untouched state. -/
theorem c5_invalid_input_aborts_witness :
    (processUsers srvFresh noStop st0 [invalidUser] 2).state = st0 ∧
    (processUsers srvFresh noStop st0 [invalidUser] 2).requests = [] ∧
    (processUsers srvFresh noStop st0 [invalidUser] 2).progressValues = [] ∧
    (processUsers srvFresh noStop st0 [invalidUser] 2).successCount = 0 ∧
    (processUsers srvFresh noStop st0 [invalidUser] 2).errorCount = 0 ∧
    (processUsers srvFresh noStop st0 [invalidUser] 2).abortedInvalidCount =
      some (([invalidUser].filter (fun u => (validateUser u).isSome)).length) ∧
    0 < (([invalidUser] : List UserRecord).filter
      (fun u => (validateUser u).isSome)).length :=
  c5_invalid_input_aborts srvFresh noStop st0 [invalidUser] 2
    ⟨invalidUser, List.mem_singleton.mpr rfl, by decide⟩

/-- Claim C6. For every all-valid record set and batchSize in {1,2,5,10}, the
loop partitions the records into ceil(N/batchSize) contiguous chunks whose
concatenation is the original set, each chunk holding at most batchSize
records (the in-flight bound), and the run's request stream is exactly the
concatenation of the per-chunk request blocks in chunk order — chunks are
strictly sequential, each chunk's requests complete before the next chunk
contributes any. -/
theorem c6_chunking_sequential (srv : UpsertServer) (st : EngineState)
    (records : List UserRecord) (b : Nat)
    (hb : b = 1 ∨ b = 2 ∨ b = 5 ∨ b = 10)
    (hvalid : ∀ u ∈ records, validateUser u = none) :
    (chunksOf b records).length = (records.length + b - 1) / b ∧
    (chunksOf b records).flatten = records ∧
    (∀ c ∈ chunksOf b records, c.length ≤ b) ∧
    (processUsers srv noStop st records b).requests =
      (chunksOf b records).flatMap (fun c => (processBatch srv c).2) := by
  have hb0 : 0 < b := by rcases hb with h | h | h | h <;> omega
  refine ⟨chunksOf_length b records, chunksOf_join hb0 records,
    chunksOf_chunk_le b records, ?_⟩
  rw [processUsers_run srv noStop st records b hvalid]
  show (runChunks srv noStop records.length b (chunksOf b records) 0 _).requests = _
  rw [show noStop = (fun _ => false) from rfl, runChunks_noStop]
  simp

/-- Witness for C6 at five concrete records with batchSize 2: three chunks
of sizes 2, 2, 1 whose concatenation is the input, and a request stream
equal to the concatenation of the three chunk blocks. -/
theorem c6_chunking_sequential_witness :
    (chunksOf 2 [sampleUser "u1", sampleUser "u2", sampleUser "u3",
      sampleUser "u4", sampleUser "u5"]).length = (5 + 2 - 1) / 2 ∧
    (chunksOf 2 [sampleUser "u1", sampleUser "u2", sampleUser "u3",
      sampleUser "u4", sampleUser "u5"]).flatten =
      [sampleUser "u1", sampleUser "u2", sampleUser "u3",
       sampleUser "u4", sampleUser "u5"] ∧
    (∀ c ∈ chunksOf 2 [sampleUser "u1", sampleUser "u2", sampleUser "u3",
      sampleUser "u4", sampleUser "u5"], c.length ≤ 2) ∧
    (processUsers srvFresh noStop st0 [sampleUser "u1", sampleUser "u2",
      sampleUser "u3", sampleUser "u4", sampleUser "u5"] 2).requests =
      (chunksOf 2 [sampleUser "u1", sampleUser "u2", sampleUser "u3",
        sampleUser "u4", sampleUser "u5"]).flatMap
        (fun c => (processBatch srvFresh c).2) :=
  c6_chunking_sequential srvFresh st0
    [sampleUser "u1", sampleUser "u2", sampleUser "u3",
     sampleUser "u4", sampleUser "u5"] 2
    (Or.inr (Or.inl rfl))
    (by intro u hu; fin_cases hu <;> rfl)

/-- Claim C9. If the cancellation flag is raised while chunk k (0-based) is
in flight — so the checks before chunk k observe it down and the check
after chunk k observes it up — then chunk k still completes and is counted:
the run's requests are exactly the blocks of chunks 0..k, the stored
failedRecords are exactly the failures of chunks 0..k, the success count
counts exactly the successes of chunks 0..k, and the run reports itself
stopped; no later chunk contributes anything. -/
theorem c9_cancellation_boundary (srv : UpsertServer) (st : EngineState)
    (records : List UserRecord) (b k : Nat) (stopAfter : Nat → Bool)
    (hvalid : ∀ u ∈ records, validateUser u = none)
    (hk : k < (chunksOf b records).length)
    (hflag : ∀ j, stopAfter j = true ↔ k ≤ j) :
    (processUsers srv stopAfter st records b).stopped = true ∧
    (processUsers srv stopAfter st records b).requests =
      ((chunksOf b records).take (k + 1)).flatMap
        (fun c => (processBatch srv c).2) ∧
    (processUsers srv stopAfter st records b).state.failedUsers =
      ((chunksOf b records).take (k + 1)).flatten.filter
        (fun u => !(processRecord srv u).1) ∧
    (processUsers srv stopAfter st records b).successCount =
      (((chunksOf b records).take (k + 1)).flatten.filter
        (fun u => (processRecord srv u).1)).length := by
  rw [processUsers_run srv stopAfter st records b hvalid]
  have hflag0 : ∀ j, stopAfter j = true ↔ 0 + k ≤ j := by
    intro j
    rw [hflag j]
    omega
  rw [runChunks_stop srv records.length b stopAfter k
    (chunksOf b records) 0 _ hflag0 hk]
  rw [runChunks_noStop]
  simp

/-- Witness for C9: two records, batchSize 1, flag raised during the first
chunk (`stopAfter` true from check 0 on): only chunk 0's lookup-create pair
is issued, no failure is stored, one success is counted, and the run
reports stopped. -/
theorem c9_cancellation_boundary_witness :
    (processUsers srvFresh (fun _ => true) st0
      [sampleUser "u1", sampleUser "u2"] 1).stopped = true ∧
    (processUsers srvFresh (fun _ => true) st0
      [sampleUser "u1", sampleUser "u2"] 1).requests =
      ((chunksOf 1 [sampleUser "u1", sampleUser "u2"]).take (0 + 1)).flatMap
        (fun c => (processBatch srvFresh c).2) ∧
    (processUsers srvFresh (fun _ => true) st0
      [sampleUser "u1", sampleUser "u2"] 1).state.failedUsers =
      ((chunksOf 1 [sampleUser "u1", sampleUser "u2"]).take (0 + 1)).flatten.filter
        (fun u => !(processRecord srvFresh u).1) ∧
    (processUsers srvFresh (fun _ => true) st0
      [sampleUser "u1", sampleUser "u2"] 1).successCount =
      (((chunksOf 1 [sampleUser "u1", sampleUser "u2"]).take (0 + 1)).flatten.filter
        (fun u => (processRecord srvFresh u).1)).length :=
  c9_cancellation_boundary srvFresh st0 [sampleUser "u1", sampleUser "u2"] 1 0
    (fun _ => true)
    (by intro u hu; fin_cases hu <;> rfl)
    (by decide)
    (by intro j; simp)

/-- Claim C8 (counterexample). Invoking the Batch Upsert Engine entry point
while the connection status is "disconnected" does not refuse to start: on
one valid fresh record it issues its network requests and processes the
record to success — there is no status check and no precondition failure in
the entry point. -/
theorem c8_counterexample :
    (processUsersAt "disconnected" srvFresh noStop st0
      [sampleUser "alice"] 2).requests ≠ [] ∧
    (processUsersAt "disconnected" srvFresh noStop st0
      [sampleUser "alice"] 2).successCount = 1 := by
  constructor
  · decide
  · rfl

/-- Claim C8 (amended). None of the three run entry points — upsert,
deletion, password update — reads the connection status: each behaves
identically under every status string, and when invoked while
"disconnected" with a nonempty input each proceeds to issue network
requests and process records instead of failing fast.  (The only gating on
`connectionStatus` is in the UI layer: disabled buttons and the Ctrl+I
handler.) -/
theorem c8_amended_no_connection_gate :
    (∀ (status : String) (srv : UpsertServer) (stopAfter : Nat → Bool)
      (st : EngineState) (records : List UserRecord) (b : Nat),
      processUsersAt status srv stopAfter st records b =
        processUsersAt "connected" srv stopAfter st records b) ∧
    (∀ (status : String) (confirmed : Bool) (env : String → DeleteEnv)
      (selected : List (String × String)),
      deleteSelectedUsersAt status confirmed env selected =
        deleteSelectedUsersAt "connected" confirmed env selected) ∧
    (∀ (status : String) (env : PasswordEnv) (pwUsers : List String),
      processPasswordUpdatesAt status env pwUsers =
        processPasswordUpdatesAt "connected" env pwUsers) ∧
    (processUsersAt "disconnected" srvFresh noStop st0
      [sampleUser "alice"] 2).successCount = 1 ∧
    (deleteSelectedUsersAt "disconnected" true delEnvOk
      [("id1", "alice")]).2 ≠ [] ∧
    (processPasswordUpdatesAt "disconnected" pwEnvOk ["alice"]).2.2 ≠ [] := by
  refine ⟨fun _ _ _ _ _ _ => rfl, fun _ _ _ _ => rfl, fun _ _ _ => rfl,
    rfl, ?_, ?_⟩
  · decide
  · decide

namespace UserManager

/-! ## Export/dedup engine (`exportUsersToCSV`, lines 743–811)

The page loop threads a seen-set and a row list through all fetched pages.
A missing record id (`!uid`) is modelled by the empty string.  The seen-set
is modelled as the list of ids in insertion order; the code only ever
inserts an id that is not yet present, so list length and set size agree. -/

/-- An organisation-unit ancestor as projected by the export field list. -/
structure Ancestor where
  name : String
deriving DecidableEq, Repr

/-- An organisation unit as projected by the export field list. -/
structure OrgUnit where
  name : String
  id : String
  ancestors : List Ancestor
deriving DecidableEq, Repr

/-- One user as returned by the export page fetches. -/
structure ExportUser where
  id : String
  name : String := ""
  username : String := ""
  userGroups : List String := []
  userRoles : List String := []
  lastLogin : String := ""
  organisationUnits : List OrgUnit := []
deriving DecidableEq, Repr

/-- The flattened projection stored per exported user. -/
structure ExportedRow where
  id : String
  name : String
  username : String
  userGroups : String
  userRoles : String
  lastLogin : String
  OrgunitPath : String
  OrgunitUID : String
deriving DecidableEq, Repr

/-- Projection of one kept user (lines 772–796): groups and roles joined
with "; "; only organisation units whose ancestor chain has length exactly
4 contribute a path (4 ancestor names then the unit name, joined with
" > ") and a uid; the per-unit contributions are joined with " | ". -/
def projectRow (user : ExportUser) : ExportedRow :=
  let kept := user.organisationUnits.filter (fun ou => ou.ancestors.length == 4)
  { id := user.id,
    name := user.name,
    username := user.username,
    userGroups := String.intercalate "; " user.userGroups,
    userRoles := String.intercalate "; " user.userRoles,
    lastLogin := user.lastLogin,
    OrgunitPath := String.intercalate " | "
      (kept.map (fun ou =>
        String.intercalate " > " (ou.ancestors.map (fun a => a.name) ++ [ou.name]))),
    OrgunitUID := String.intercalate " | " (kept.map (fun ou => ou.id)) }

/-- The per-user body of the page loop (lines 767–797): skip the user when
its id is missing or already seen, otherwise mark the id seen and append
the projected row. -/
def exportStep (st : List String × List ExportedRow) (user : ExportUser) :
    List String × List ExportedRow :=
  if user.id = "" ∨ user.id ∈ st.1 then st
  else (st.1 ++ [user.id], st.2 ++ [projectRow user])

/-- Model of `exportUsersToCSV` (lines 743–811) on a run in which every page fetch
succeeds: consume the pages in pager order, threading the seen-set and the
accumulated rows through the whole run; the result replaces the stored
exported set wholesale. -/
def exportUsersToCSV (pages : List (List ExportUser)) :
    List String × List ExportedRow :=
  pages.foldl (fun st page => page.foldl exportStep st) ([], [])

/-- The subsequence of users actually kept by the skip-if-seen rule,
relative to an already-seen id set: the first occurrence of each id is
kept, empty ids and repeats are dropped. -/
def keepNew (seen : List String) : List ExportUser → List ExportUser
  | [] => []
  | user :: rest =>
    if user.id = "" ∨ user.id ∈ seen then keepNew seen rest
    else user :: keepNew (seen ++ [user.id]) rest

theorem projectRow_id (user : ExportUser) : (projectRow user).id = user.id := rfl

theorem foldl_exportStep_spec :
    ∀ (users : List ExportUser) (seen : List String) (rows : List ExportedRow),
    users.foldl exportStep (seen, rows) =
      (seen ++ (keepNew seen users).map (fun u => u.id),
       rows ++ (keepNew seen users).map projectRow) := by
  intro users
  induction users with
  | nil => intro seen rows; simp [keepNew]
  | cons user rest ih =>
    intro seen rows
    by_cases hc : user.id = "" ∨ user.id ∈ seen
    · simp only [List.foldl_cons, exportStep, if_pos hc, keepNew, ih]
    · simp only [List.foldl_cons, exportStep, if_neg hc, keepNew, ih]
      simp [List.append_assoc]

theorem exportUsersToCSV_eq (pages : List (List ExportUser)) :
    exportUsersToCSV pages =
      ((keepNew [] pages.flatten).map (fun u => u.id),
       (keepNew [] pages.flatten).map projectRow) := by
  have hflat : ∀ (st : List String × List ExportedRow),
      pages.foldl (fun st page => page.foldl exportStep st) st =
        pages.flatten.foldl exportStep st := by
    induction pages with
    | nil => intro st; rfl
    | cons page rest ih =>
      intro st
      simp [List.flatten_cons, List.foldl_append, ih]
  unfold exportUsersToCSV
  rw [hflat, foldl_exportStep_spec]
  simp

theorem keepNew_mem :
    ∀ (users : List ExportUser) (seen : List String) (uid : String),
    uid ∈ (keepNew seen users).map (fun u => u.id) ↔
      uid ≠ "" ∧ uid ∉ seen ∧ uid ∈ users.map (fun u => u.id) := by
  intro users
  induction users with
  | nil => intro seen uid; simp [keepNew]
  | cons user rest ih =>
    intro seen uid
    by_cases hc : user.id = "" ∨ user.id ∈ seen
    · rw [keepNew, if_pos hc, ih]
      simp only [List.map_cons, List.mem_cons]
      constructor
      · rintro ⟨h1, h2, h3⟩
        exact ⟨h1, h2, Or.inr h3⟩
      · rintro ⟨h1, h2, h3 | h3⟩
        · rcases hc with hce | hcs
          · exact absurd (h3.trans hce) h1
          · exact absurd (h3 ▸ hcs) h2
        · exact ⟨h1, h2, h3⟩
    · push_neg at hc
      rw [keepNew, if_neg (by tauto)]
      simp only [List.map_cons, List.mem_cons, ih, List.mem_append,
        List.mem_singleton]
      constructor
      · rintro (h | ⟨h1, h2, h3⟩)
        · exact ⟨h ▸ hc.1, h ▸ hc.2, Or.inl h⟩
        · exact ⟨h1, fun hs => h2 (Or.inl hs), Or.inr h3⟩
      · rintro ⟨h1, h2, h3 | h3⟩
        · exact Or.inl h3
        · by_cases heq : uid = user.id
          · exact Or.inl heq
          · exact Or.inr ⟨h1, by tauto, h3⟩

theorem keepNew_nodup :
    ∀ (users : List ExportUser) (seen : List String),
    ((keepNew seen users).map (fun u => u.id)).Nodup := by
  intro users
  induction users with
  | nil => intro seen; simp [keepNew]
  | cons user rest ih =>
    intro seen
    by_cases hc : user.id = "" ∨ user.id ∈ seen
    · rw [keepNew, if_pos hc]
      exact ih seen
    · push_neg at hc
      rw [keepNew, if_neg (by tauto)]
      simp only [List.map_cons, List.nodup_cons]
      refine ⟨?_, ih (seen ++ [user.id])⟩
      intro hmem
      have h := (keepNew_mem rest (seen ++ [user.id]) user.id).mp hmem
      exact absurd (List.mem_append.mpr (Or.inr (List.mem_singleton.mpr rfl)))
        h.2.1

end UserManager

/-- Claim C7. For every export run (all pages fetched successfully), the
seen-set size equals the number of ExportedRows emitted, the emitted row
ids are pairwise distinct, a nonempty id appears among the fetched records
(pagination overlap included) exactly when precisely one ExportedRow
carries it, and the emitted rows are precisely the projections of the first
occurrence of each id in page order. -/
theorem c7_export_dedup (pages : List (List ExportUser)) :
    (exportUsersToCSV pages).1.length = (exportUsersToCSV pages).2.length ∧
    ((exportUsersToCSV pages).2.map (fun r => r.id)).Nodup ∧
    (∀ uid : String, uid ≠ "" →
      (uid ∈ pages.flatten.map (fun u => u.id) ↔
        ((exportUsersToCSV pages).2.map (fun r => r.id)).count uid = 1)) ∧
    (exportUsersToCSV pages).2 = (keepNew [] pages.flatten).map projectRow ∧
    (exportUsersToCSV pages).1 = (keepNew [] pages.flatten).map (fun u => u.id) := by
  rw [exportUsersToCSV_eq]
  have hids : ((keepNew [] pages.flatten).map projectRow).map (fun r => r.id) =
      (keepNew [] pages.flatten).map (fun u => u.id) := by
    rw [List.map_map]
    rfl
  refine ⟨by simp, ?_, ?_, rfl, rfl⟩
  · rw [hids]
    exact keepNew_nodup pages.flatten []
  · intro uid huid
    rw [hids]
    constructor
    · intro hmemflat
      have hmem : uid ∈ (keepNew [] pages.flatten).map (fun u => u.id) :=
        (keepNew_mem pages.flatten [] uid).mpr ⟨huid, by simp, hmemflat⟩
      exact List.count_eq_one_of_mem (keepNew_nodup pages.flatten []) hmem
    · intro hcount
      have hmem : uid ∈ (keepNew [] pages.flatten).map (fun u => u.id) := by
        have hpos : 0 < ((keepNew [] pages.flatten).map (fun u => u.id)).count uid := by
          omega
        exact List.count_pos_iff.mp hpos
      exact ((keepNew_mem pages.flatten [] uid).mp hmem).2.2

/-- Witness for C7 at two concrete pages that share the overlapping id
"dup": the seen-set size equals the row count, and "dup" yields exactly one
ExportedRow. -/
theorem c7_export_dedup_witness :
    (exportUsersToCSV [[{ id := "a" }, { id := "dup" }],
      [{ id := "dup" }, { id := "b" }]]).1.length =
      (exportUsersToCSV [[{ id := "a" }, { id := "dup" }],
        [{ id := "dup" }, { id := "b" }]]).2.length ∧
    ("dup" ∈ ([[({ id := "a" } : ExportUser), { id := "dup" }],
        [{ id := "dup" }, { id := "b" }]] : List (List ExportUser)).flatten.map
          (fun u => u.id) ↔
      ((exportUsersToCSV [[{ id := "a" }, { id := "dup" }],
        [{ id := "dup" }, { id := "b" }]]).2.map (fun r => r.id)).count "dup" = 1) :=
  ⟨(c7_export_dedup [[{ id := "a" }, { id := "dup" }],
      [{ id := "dup" }, { id := "b" }]]).1,
   (c7_export_dedup [[{ id := "a" }, { id := "dup" }],
      [{ id := "dup" }, { id := "b" }]]).2.2.1 "dup" (by decide)⟩
